import Mathlib

/-!
Verification of the ArchiMate model analyzer (`archimate_analyzer.py`).

The Python `ArchiMateAnalyzer` class is shallowly embedded: its mutable
state (`self.elements`, `self.relationships`, `self.graph`) becomes the
`Analyzer` structure, parsing and the analysis passes become functions on
it, and every Python dictionary access that can raise `KeyError` (and
every networkx call that can raise) is modelled in the `Except String`
monad.  Python floats arising here (`1.5`, `2`, `0.5` and their sums) are
dyadic rationals that floats represent exactly, so scores are embedded
as `ℚ`.
-/

instance {ε α : Type} [DecidableEq ε] [DecidableEq α] :
    DecidableEq (Except ε α) := fun x y =>
  match x, y with
  | Except.ok a, Except.ok b =>
    if h : a = b then Decidable.isTrue (by rw [h])
    else Decidable.isFalse (fun he => h (Except.ok.inj he))
  | Except.error a, Except.error b =>
    if h : a = b then Decidable.isTrue (by rw [h])
    else Decidable.isFalse (fun he => h (Except.error.inj he))
  | Except.ok _, Except.error _ =>
    Decidable.isFalse (fun he => Except.noConfusion he)
  | Except.error _, Except.ok _ =>
    Decidable.isFalse (fun he => Except.noConfusion he)

/-- Substring test on character lists: Python's `needle in hay`.
`containsSub n h` is true iff `n` occurs contiguously in `h`. -/
def containsSub : List Char → List Char → Bool
  | n, [] => n.isEmpty
  | n, c :: rest => n.isPrefixOf (c :: rest) || containsSub n rest

/-- Python's `str.lower()`, on the ASCII data these models carry. -/
def strLower (s : String) : String := ⟨s.data.map Char.toLower⟩

/-- Python's `needle in hay` on strings. -/
def strContains (hay needle : String) : Bool :=
  containsSub needle.data hay.data

/-- The `ArchiMateElement` dataclass.  `etype` embeds the `type` field,
which is `elem.get('xsi:type')` and hence possibly `None`. -/
structure ArchiMateElement where
  id : String
  name : String
  etype : Option String
  layer : String
  relationships : List String
  properties : List (String × String)
deriving DecidableEq, Repr

/-- One value of the `self.relationships` dict: the relationship id (the
dict key) together with the stored `source`/`target`/`type` record. -/
structure RelEntry where
  id : String
  source : String
  target : String
  rtype : Option String
deriving DecidableEq, Repr

/-- The networkx `DiGraph`: node list and simple directed edge list, both
in insertion order.  Node/edge attributes are never read back by the
analysis (it always consults `self.elements`), so they are not stored. -/
structure Graph where
  nodes : List String
  edges : List (String × String)
deriving DecidableEq, Repr

/-- `DiGraph.add_node`: no-op on an existing node. -/
def Graph.addNode (g : Graph) (n : String) : Graph :=
  if n ∈ g.nodes then g else ⟨g.nodes ++ [n], g.edges⟩

/-- `DiGraph.add_edge`: inserts missing endpoints as nodes and collapses
parallel edges (the graph is simple, not a multigraph). -/
def Graph.addEdge (g : Graph) (s t : String) : Graph :=
  let g1 := (g.addNode s).addNode t
  if (s, t) ∈ g1.edges then g1 else ⟨g1.nodes, g1.edges ++ [(s, t)]⟩

/-- `DiGraph.neighbors` of a directed graph: the successors of `n`. -/
def Graph.successors (g : Graph) (n : String) : List String :=
  (g.edges.filter (fun e => e.1 == n)).map (fun e => e.2)

/-- `DiGraph.predecessors`: the in-neighbors of `n`.  The analysis code
never calls this; it is needed to state the spec's notion of "total
neighbor count (predecessors + successors)". -/
def Graph.predecessors (g : Graph) (n : String) : List String :=
  (g.edges.filter (fun e => e.2 == n)).map (fun e => e.1)

/-- The analyzer state: `self.elements` (a dict in insertion order),
`self.relationships` (likewise) and `self.graph`. -/
structure Analyzer where
  elements : List ArchiMateElement
  relationships : List RelEntry
  graph : Graph
deriving DecidableEq, Repr

/-- The state `__init__` leaves behind. -/
def emptyAnalyzer : Analyzer := ⟨[], [], ⟨[], []⟩⟩

/-- `self.layers`: marker substrings per layer, in dict insertion order. -/
def layersTable : List (String × List String) :=
  [("business", ["business-actor", "business-role", "business-process",
                 "business-function"]),
   ("application", ["application-component", "application-service",
                    "application-interface"]),
   ("technology", ["node", "device", "system-software",
                   "technology-service"])]

/-- `self.element_risks`. -/
def elementRisksTable : List (String × List String) :=
  [("business-process",
    ["Process efficiency", "Business continuity", "Compliance requirements",
     "Resource allocation"]),
   ("application-component",
    ["Technical debt", "Scalability limitations", "Integration complexity",
     "Maintenance overhead"]),
   ("technology-service",
    ["Service availability", "Performance bottlenecks",
     "Security vulnerabilities", "Infrastructure dependencies"])]

/-- `self.relationship_risks`. -/
def relationshipRisksTable : List (String × List String) :=
  [("serving",
    ["Service level agreements", "Dependency management",
     "Interface stability"]),
   ("realization",
    ["Implementation complexity", "Resource requirements",
     "Technical feasibility"]),
   ("assignment",
    ["Resource allocation", "Responsibility clarity", "Skill requirements"])]

/-- Python `dict` lookup on an association table. -/
def lookupTable (tbl : List (String × List String)) (k : String) :
    Option (List String) :=
  (tbl.find? (fun p => p.1 == k)).map (fun p => p.2)

/-- The loop body of `_determine_layer` over the layer table. -/
def determineLayerGo (lowered : String) : List (String × List String) → String
  | [] => "unknown"
  | (layer, types) :: rest =>
    if types.any (fun t => strContains lowered t) then layer
    else determineLayerGo lowered rest

/-- `_determine_layer` applied to a present (non-`None`) type tag. -/
def determineLayerStr (element_type : String) : String :=
  determineLayerGo (strLower element_type) layersTable

/-- `_determine_layer` as called from the parser: the argument is
`elem.get('xsi:type')`, so `None` reaches `element_type.lower()` and
raises `AttributeError`. -/
def determineLayer : Option String → Except String String
  | none => Except.error "AttributeError"
  | some s => Except.ok (determineLayerStr s)

/-- One `<element>` record as the parser reads it: `identifier`, `name`,
`xsi:type` (possibly absent) and its `<property>` children. -/
structure ElementRecord where
  id : String
  name : String
  etype : Option String
  properties : List (String × String)
deriving DecidableEq, Repr

/-- One `<relationship>` record: `identifier`, `source`, `target`,
`xsi:type`. -/
structure RelRecord where
  id : String
  source : String
  target : String
  rtype : Option String
deriving DecidableEq, Repr

/-- The element and relationship records of one model file, in document
order. -/
structure ModelSource where
  elements : List ElementRecord
  rels : List RelRecord
deriving DecidableEq, Repr

/-- Python dict insert `d[k] = v` on an association list keyed by `id`:
replaces in place when the key exists, else appends. -/
def upsertElement : List ArchiMateElement → ArchiMateElement →
    List ArchiMateElement
  | [], e => [e]
  | x :: xs, e => if x.id == e.id then e :: xs else x :: upsertElement xs e

/-- Python dict insert on the relationships dict. -/
def upsertRel : List RelEntry → RelEntry → List RelEntry
  | [], r => [r]
  | x :: xs, r => if x.id == r.id then r :: xs else x :: upsertRel xs r

/-- Python dict insert on a string-keyed property dict. -/
def upsertPair : List (String × String) → String × String →
    List (String × String)
  | [], p => [p]
  | x :: xs, p => if x.1 == p.1 then p :: xs else x :: upsertPair xs p

/-- The property-parsing loop: `element.properties[key] = value`. -/
def propsDict (ps : List (String × String)) : List (String × String) :=
  ps.foldl upsertPair []

/-- The element branch of `parse_archimate_model`: build the dataclass
(classifying its layer), store it, add its graph node. -/
def parseElement (st : Analyzer) (r : ElementRecord) :
    Except String Analyzer := do
  let layer ← determineLayer r.etype
  let e : ArchiMateElement := ⟨r.id, r.name, r.etype, layer, [], propsDict r.properties⟩
  pure ⟨upsertElement st.elements e, st.relationships, st.graph.addNode e.id⟩

/-- `self.elements[i].relationships.append(relId)`: `KeyError` when `i`
is not a stored element id. -/
def appendRelId : List ArchiMateElement → String → String →
    Except String (List ArchiMateElement)
  | [], _, _ => Except.error "KeyError"
  | x :: xs, i, relId =>
    if x.id == i then
      Except.ok ({ x with relationships := x.relationships ++ [relId] } :: xs)
    else
      (appendRelId xs i relId).map (fun ys => x :: ys)

/-- The relationship branch of `parse_archimate_model`: store the record,
add the edge, append the relationship id to both endpoint elements (the
dict and edge updates are pure and commute with the two appends, whose
`KeyError` discards the state in this embedding). -/
def parseRel (st : Analyzer) (r : RelRecord) : Except String Analyzer := do
  let es1 ← appendRelId st.elements r.source r.id
  let es2 ← appendRelId es1 r.target r.id
  pure ⟨es2, upsertRel st.relationships ⟨r.id, r.source, r.target, r.rtype⟩,
    st.graph.addEdge r.source r.target⟩

/-- `parse_archimate_model`: all elements, then all relationships. -/
def parseModel (st : Analyzer) (src : ModelSource) : Except String Analyzer := do
  let st1 ← src.elements.foldlM parseElement st
  src.rels.foldlM parseRel st1

/-- `self.elements` lookup, at the list level. -/
def findElem (es : List ArchiMateElement) (i : String) :
    Option ArchiMateElement :=
  es.find? (fun e => e.id == i)

/-- `self.elements` lookup on a state. -/
def lookupElem (st : Analyzer) (i : String) : Option ArchiMateElement :=
  findElem st.elements i

/-- `self.relationships` lookup on a state. -/
def lookupRel (st : Analyzer) (i : String) : Option RelEntry :=
  st.relationships.find? (fun r => r.id == i)

/-- `self.elements[i]` with its `KeyError`. -/
def elemKey (st : Analyzer) (i : String) : Except String ArchiMateElement :=
  match lookupElem st i with
  | some e => Except.ok e
  | none => Except.error "KeyError"

/-- `_get_layer_level`: `{'business': 0, 'application': 1,
'technology': 2}.get(layer, -1)`. -/
def getLayerLevel (layer : String) : Int :=
  ((([("business", (0 : Int)), ("application", 1), ("technology", 2)]).find?
      (fun p => p.1 == layer)).map (fun p => p.2)).getD (-1)

/-- The neighbor loop of `_check_layer_alignment`: returns `False` at the
first neighbor whose layer level differs by more than 1. -/
def checkLayerAlignmentGo (st : Analyzer) (e : ArchiMateElement) :
    List String → Except String Bool
  | [] => Except.ok true
  | n :: rest => do
    let ne ← elemKey st n
    if 1 < (getLayerLevel e.layer - getLayerLevel ne.layer).natAbs then
      Except.ok false
    else
      checkLayerAlignmentGo st e rest

/-- `_check_layer_alignment`. -/
def checkLayerAlignment (st : Analyzer) (e : ArchiMateElement) :
    Except String Bool :=
  checkLayerAlignmentGo st e (st.graph.successors e.id)

/-- `round(x, 2)` on the exact rational value of the float `x`.  On every
value this program rounds (a multiple of 1/2, so `x * 100` is an
integer) every rounding convention is the identity, so the choice of
half-up here is immaterial. -/
def round2 (q : ℚ) : ℚ := ((q * 100 + 1/2).floor : ℚ) / 100

/-- `_calculate_complexity_score`: the score accumulates
`len(element.relationships) * 1.5`, then `cross_layer_count * 2` over
the neighbors (`self.graph.neighbors`, i.e. successors), then
`len(element.properties) * 0.5`, and is rounded to two decimals. -/
def complexityScore (st : Analyzer) (e : ArchiMateElement) :
    Except String ℚ := do
  let nelems ← (st.graph.successors e.id).mapM (elemKey st)
  let cross_layer_count := (nelems.filter (fun ne => ne.layer != e.layer)).length
  let score : ℚ :=
    0 + (e.relationships.length : ℚ) * (3/2)
      + (cross_layer_count : ℚ) * 2
      + (e.properties.length : ℚ) * (1/2)
  pure (round2 score)

/-- The f-string `f"High coupling: {element.name} has many dependencies"`. -/
def highCouplingMsg (name : String) : String :=
  "High coupling: " ++ name ++ " has many dependencies"

/-- The f-string for the layer-misalignment risk. -/
def misalignMsg (name : String) : String :=
  "Layer misalignment: " ++ name ++ " has cross-layer dependencies"

/-- The f-string for the circular-dependency risk. -/
def circularMsg (sname tname : String) : String :=
  "Circular dependency detected between " ++ sname ++ " and " ++ tname

/-- `if element.type in self.element_risks: risks.extend(...)`. -/
def elementStaticRisks : Option String → List String
  | some t => (lookupTable elementRisksTable t).getD []
  | none => []

/-- `if rel['type'] in self.relationship_risks: risks.extend(...)`. -/
def relStaticRisks : Option String → List String
  | some t => (lookupTable relationshipRisksTable t).getD []
  | none => []

/-- One record of the `_analyze_elements` output list. -/
structure ElementReport where
  id : String
  name : String
  etype : Option String
  layer : String
  risks : List String
  complexity_score : ℚ
deriving DecidableEq, Repr

/-- The body of the `_analyze_elements` loop for one element.  The first
`self.graph.neighbors` call raises `NetworkXError` when the id is not a
graph node (never the case for a parsed model). -/
def elementReport (st : Analyzer) (e : ArchiMateElement) :
    Except String ElementReport := do
  if e.id ∈ st.graph.nodes then
    let aligned ← checkLayerAlignment st e
    let score ← complexityScore st e
    pure ⟨e.id, e.name, e.etype, e.layer,
      elementStaticRisks e.etype ++
        (if 5 < (st.graph.successors e.id).length
         then [highCouplingMsg e.name] else []) ++
        (if aligned then [] else [misalignMsg e.name]),
      score⟩
  else
    Except.error "NetworkXError"

/-- `_analyze_elements`, in element insertion order. -/
def analyzeElements (st : Analyzer) : Except String (List ElementReport) :=
  st.elements.mapM (elementReport st)

/-- One edge of the breadth step: visit the target of an edge whose
source has been visited. -/
def stepFold (acc : List String) (e : String × String) : List String :=
  if e.1 ∈ acc ∧ e.2 ∉ acc then acc ++ [e.2] else acc

/-- One breadth step of graph search: add every edge target whose source
has been visited. -/
def Graph.step (g : Graph) (vs : List String) : List String :=
  g.edges.foldl stepFold vs

/-- Iterated breadth steps. -/
def Graph.closure (g : Graph) : Nat → List String → List String
  | 0, vs => vs
  | n + 1, vs => g.closure n (g.step vs)

/-- Directed reachability (what `nx.shortest_path(G, a, b)` succeeds on):
`b` is reached from `a` by zero or more edges. -/
def Graph.reachable (g : Graph) (a b : String) : Bool :=
  decide (b ∈ g.closure g.nodes.length [a])

/-- `_has_circular_dependency`: `nx.shortest_path(self.graph, target,
source)` raises `NodeNotFound` (uncaught) when an endpoint is not a
node; `NetworkXNoPath` (caught, `False`) when unreachable; and a path,
necessarily nonempty, otherwise (`True`). -/
def hasCircularDependency (st : Analyzer) (source target : String) :
    Except String Bool :=
  if target ∈ st.graph.nodes ∧ source ∈ st.graph.nodes then
    Except.ok (st.graph.reachable target source)
  else
    Except.error "NodeNotFound"

/-- One record of the `_analyze_relationships` output list. -/
structure RelReport where
  id : String
  source : String
  target : String
  rtype : Option String
  risks : List String
deriving DecidableEq, Repr

/-- The body of the `_analyze_relationships` loop for one relationship. -/
def relReport (st : Analyzer) (r : RelEntry) : Except String RelReport := do
  let risks0 := relStaticRisks r.rtype
  let circ ← hasCircularDependency st r.source r.target
  let se ← elemKey st r.source
  let te ← elemKey st r.target
  let risks := risks0 ++ (if circ then [circularMsg se.name te.name] else [])
  pure ⟨r.id, se.name, te.name, r.rtype, risks⟩

/-- `_analyze_relationships`, in relationship insertion order. -/
def analyzeRelationships (st : Analyzer) : Except String (List RelReport) :=
  st.relationships.mapM (relReport st)

/-- `layer_analysis` rows: layer name, element count, dependency count. -/
def initLayerStats : List (String × Nat × Nat) :=
  [("business", 0, 0), ("application", 0, 0), ("technology", 0, 0)]

/-- `if element.layer in layer_analysis: ...['elements'] += 1` — silently
skips layers without a row (in particular `unknown`). -/
def bumpElems : List (String × Nat × Nat) → String → List (String × Nat × Nat)
  | [], _ => []
  | (l, es, ds) :: rest, k =>
    if l == k then (l, es + 1, ds) :: rest else (l, es, ds) :: bumpElems rest k

/-- `layer_analysis[k]['dependencies'] += 1` — raises `KeyError` when `k`
has no row. -/
def bumpDeps : List (String × Nat × Nat) → String →
    Except String (List (String × Nat × Nat))
  | [], _ => Except.error "KeyError"
  | (l, es, ds) :: rest, k =>
    if l == k then Except.ok ((l, es, ds + 1) :: rest)
    else (bumpDeps rest k).map (fun ys => (l, es, ds) :: ys)

/-- The cross-layer-dependency loop body of `_analyze_layers` for one
relationship. -/
def layerDepStep (st : Analyzer) (stats : List (String × Nat × Nat))
    (r : RelEntry) : Except String (List (String × Nat × Nat)) := do
  let se ← elemKey st r.source
  let te ← elemKey st r.target
  if se.layer ≠ te.layer then do
    let s1 ← bumpDeps stats se.layer
    bumpDeps s1 te.layer
  else
    pure stats

/-- `_analyze_layers`. -/
def analyzeLayers (st : Analyzer) :
    Except String (List (String × Nat × Nat)) := do
  let afterElems := st.elements.foldl (fun acc e => bumpElems acc e.layer)
    initLayerStats
  st.relationships.foldlM (layerDepStep st) afterElems

/-- The dependency-counter column of a stats row. -/
def statsDeps (stats : List (String × Nat × Nat)) (l : String) : Nat :=
  ((stats.find? (fun p => p.1 == l)).map (fun p => p.2.2)).getD 0

/-- Keyword lists of `_generate_recommendations`, in check order. -/
def archKeywords : List String := ["layer", "dependency", "coupling"]

/-- Integration keywords. -/
def integrationKeywords : List String := ["interface", "connection", "relationship"]

/-- Security keywords. -/
def securityKeywords : List String := ["security", "vulnerability", "access"]

/-- Performance keywords. -/
def performanceKeywords : List String := ["performance", "scalability", "efficiency"]

/-- `any(keyword in risk.lower() for keyword in ks)`. -/
def matchesKeywords (ks : List String) (risk : String) : Bool :=
  ks.any (fun k => strContains (strLower risk) k)

/-- The four `risk_categories` buckets. -/
structure RiskCategories where
  architecture : List String
  integration : List String
  security : List String
  performance : List String
deriving DecidableEq, Repr

/-- The classification loop body: first-match-wins over the four keyword
lists; an unmatched risk lands in no bucket. -/
def categorizeRisk (cats : RiskCategories) (risk : String) : RiskCategories :=
  if matchesKeywords archKeywords risk then
    { cats with architecture := cats.architecture ++ [risk] }
  else if matchesKeywords integrationKeywords risk then
    { cats with integration := cats.integration ++ [risk] }
  else if matchesKeywords securityKeywords risk then
    { cats with security := cats.security ++ [risk] }
  else if matchesKeywords performanceKeywords risk then
    { cats with performance := cats.performance ++ [risk] }
  else
    cats

/-- One recommendation object. -/
structure Recommendation where
  category : String
  risks : List String
  suggestions : List String
deriving DecidableEq, Repr

/-- The static architecture suggestion catalog. -/
def archSuggestions : List String :=
  ["Review and simplify layer interactions",
   "Reduce coupling between components",
   "Consider microservices architecture",
   "Implement clear separation of concerns"]

/-- The static integration suggestion catalog. -/
def integrationSuggestions : List String :=
  ["Standardize interfaces",
   "Implement API gateway",
   "Use event-driven architecture",
   "Define clear service contracts"]

/-- `_generate_recommendations`: classify all risks, then emit an entry
for a non-empty architecture bucket and a non-empty integration bucket.
The security and performance buckets are filled but never emitted. -/
def generateRecommendations (risks : List String) : List Recommendation :=
  let cats := risks.foldl categorizeRisk ⟨[], [], [], []⟩
  (if cats.architecture.isEmpty then []
   else [⟨"Architecture", cats.architecture, archSuggestions⟩]) ++
  (if cats.integration.isEmpty then []
   else [⟨"Integration", cats.integration, integrationSuggestions⟩])

/-- The full `analyze_model` report. -/
structure Analysis where
  elements : List ElementReport
  relationships : List RelReport
  layers : List (String × Nat × Nat)
  risks : List String
  recommendations : List Recommendation
deriving DecidableEq, Repr

/-- `analyze_model`: the pipeline over a parsed state. -/
def analyzeModel (st : Analyzer) : Except String Analysis := do
  let elems ← analyzeElements st
  let rels ← analyzeRelationships st
  let layers ← analyzeLayers st
  let allRisks :=
    (elems.foldl (fun acc r => acc ++ r.risks) []) ++
    (rels.foldl (fun acc r => acc ++ r.risks) [])
  pure ⟨elems, rels, layers, allRisks, generateRecommendations allRisks⟩

/-- Well-formed graph: nodes are distinct and edges join nodes.  Holds
for every graph the parser builds. -/
def WFGraph (g : Graph) : Prop :=
  g.nodes.Nodup ∧ ∀ p ∈ g.edges, p.1 ∈ g.nodes ∧ p.2 ∈ g.nodes

/-- Pure form of the misalignment test `_check_layer_alignment` applies
to one neighbor id: the neighbor's layer level is more than one step
away from the element's. -/
def misalignedWithB (st : Analyzer) (e : ArchiMateElement) (n : String) : Bool :=
  match lookupElem st n with
  | some ne => decide (1 < (getLayerLevel e.layer - getLayerLevel ne.layer).natAbs)
  | none => false

/-- The edge relation of the graph, for stating path existence. -/
def edgeRel (g : Graph) (a b : String) : Prop := (a, b) ∈ g.edges

/-! ## Concrete models used as test inputs -/

/-- A model whose element `x` has six in-edges and no out-edge. -/
def c1src : ModelSource :=
  ⟨[⟨"x", "x", some "node", []⟩, ⟨"p1", "p1", some "node", []⟩,
    ⟨"p2", "p2", some "node", []⟩, ⟨"p3", "p3", some "node", []⟩,
    ⟨"p4", "p4", some "node", []⟩, ⟨"p5", "p5", some "node", []⟩,
    ⟨"p6", "p6", some "node", []⟩],
   [⟨"r1", "p1", "x", none⟩, ⟨"r2", "p2", "x", none⟩, ⟨"r3", "p3", "x", none⟩,
    ⟨"r4", "p4", "x", none⟩, ⟨"r5", "p5", "x", none⟩, ⟨"r6", "p6", "x", none⟩]⟩

/-- The analyzer state after parsing `c1src`. -/
def c1state : Analyzer :=
  ((parseModel emptyAnalyzer c1src).toOption).getD emptyAnalyzer

/-- A state whose element `x` has six out-edges. -/
def c1wState : Analyzer :=
  ⟨[⟨"x", "x", none, "technology", [], []⟩, ⟨"t1", "t1", none, "technology", [], []⟩,
    ⟨"t2", "t2", none, "technology", [], []⟩, ⟨"t3", "t3", none, "technology", [], []⟩,
    ⟨"t4", "t4", none, "technology", [], []⟩, ⟨"t5", "t5", none, "technology", [], []⟩,
    ⟨"t6", "t6", none, "technology", [], []⟩],
   [],
   ⟨["x", "t1", "t2", "t3", "t4", "t5", "t6"],
    [("x", "t1"), ("x", "t2"), ("x", "t3"), ("x", "t4"), ("x", "t5"),
     ("x", "t6")]⟩⟩

/-- A model with a business element related to an element of unknown
layer (its type tag matches no layer marker). -/
def c3src : ModelSource :=
  ⟨[⟨"a", "A", some "business-process", []⟩, ⟨"b", "B", some "misc", []⟩],
   [⟨"r1", "a", "b", some "serving"⟩]⟩

/-- A model joining a business element to a technology element, so the
two layer levels differ by 2. -/
def c4src : ModelSource :=
  ⟨[⟨"a", "A", some "business-actor", []⟩, ⟨"b", "B", some "node", []⟩],
   [⟨"r1", "a", "b", none⟩]⟩

/-- The analyzer state after parsing `c4src`. -/
def c4state : Analyzer :=
  ((parseModel emptyAnalyzer c4src).toOption).getD emptyAnalyzer

/-- A two-element state: `a` in the business layer, `b` in the
technology layer, one edge `a → b`. -/
def c4wState : Analyzer :=
  ⟨[⟨"a", "A", none, "business", [], []⟩,
    ⟨"b", "B", none, "technology", [], []⟩],
   [],
   ⟨["a", "b"], [("a", "b")]⟩⟩

/-- A cyclic state: edges `a → b` and `b → a`, with the stored
relationship `r1 : a → b`. -/
def c5wState : Analyzer :=
  ⟨[⟨"a", "A", none, "business", ["r1", "r2"], []⟩,
    ⟨"b", "B", none, "business", ["r1", "r2"], []⟩],
   [⟨"r1", "a", "b", none⟩, ⟨"r2", "b", "a", none⟩],
   ⟨["a", "b"], [("a", "b"), ("b", "a")]⟩⟩

/-- The stored `r1` relationship of `c5wState`. -/
def c5wRel : RelEntry := ⟨"r1", "a", "b", none⟩

/-- A state with one property-carrying, relationship-carrying element. -/
def c6wState : Analyzer :=
  ⟨[⟨"a", "A", none, "business", ["r1"], [("k", "v")]⟩,
    ⟨"b", "B", none, "technology", ["r1"], []⟩],
   [⟨"r1", "a", "b", none⟩],
   ⟨["a", "b"], [("a", "b")]⟩⟩

/-- A model whose cross-layer relationship starts at an unknown-layer
element. -/
def c8src : ModelSource :=
  ⟨[⟨"c", "C", some "misc", []⟩, ⟨"d", "D", some "business-actor", []⟩],
   [⟨"r1", "c", "d", none⟩]⟩

/-- A state with one business and one technology element joined by the
stored relationship `r1`. -/
def c8wState : Analyzer :=
  ⟨[⟨"a", "A", none, "business", ["r1"], []⟩,
    ⟨"b", "B", none, "technology", ["r1"], []⟩],
   [⟨"r1", "a", "b", none⟩],
   ⟨["a", "b"], [("a", "b")]⟩⟩

/-- The stored `r1` relationship of `c8wState`. -/
def c8wRel : RelEntry := ⟨"r1", "a", "b", none⟩

/-- A one-element model. -/
def c9src1 : ModelSource := ⟨[⟨"e1", "E1", some "node", []⟩], []⟩

/-- Another one-element model, with a different element id. -/
def c9src2 : ModelSource := ⟨[⟨"e2", "E2", some "node", []⟩], []⟩

/-- The state after parsing `c9src1` on a fresh analyzer. -/
def c9stA : Analyzer :=
  ((parseModel emptyAnalyzer c9src1).toOption).getD emptyAnalyzer

/-- The state after then parsing `c9src2` on that same analyzer. -/
def c9stB : Analyzer :=
  ((parseModel c9stA c9src2).toOption).getD emptyAnalyzer

/-- A state with a self-loop relationship `r1 : a → a`. -/
def c10wState : Analyzer :=
  ⟨[⟨"a", "A", none, "business", ["r1", "r1"], []⟩],
   [⟨"r1", "a", "a", none⟩],
   ⟨["a"], [("a", "a")]⟩⟩

/-- The stored `r1` self-loop of `c10wState`. -/
def c10wRel : RelEntry := ⟨"r1", "a", "a", none⟩

/-! ## General lemmas -/

theorem except_bind_ok {ε α β : Type} {x : Except ε α} {f : α → Except ε β}
    {b : β} (h : x >>= f = Except.ok b) :
    ∃ a, x = Except.ok a ∧ f a = Except.ok b := by
  cases x with
  | ok a => exact ⟨a, rfl, h⟩
  | error e => exact absurd h (by simp [Bind.bind, Except.bind])

theorem rat_floor_eq (q : ℚ) : q.floor = ⌊q⌋ :=
  (Rat.floor_def' q).trans Rat.floor_def.symm

/-- On a value that is half an integer — every value this program rounds —
`round(·, 2)` is the identity. -/
theorem round2_nat_half (k : ℕ) : round2 ((k : ℚ) / 2) = (k : ℚ) / 2 := by
  unfold round2
  rw [rat_floor_eq]
  have h3 : (k : ℚ) / 2 * 100 + 1 / 2 = ((50 * (k : ℤ) : ℤ) : ℚ) + 1 / 2 := by
    push_cast; ring
  rw [h3, Int.floor_int_add]
  have h4 : ⌊(1 : ℚ) / 2⌋ = 0 := by norm_num
  rw [h4]
  push_cast
  ring

theorem str_ne_of_head {a b : String} {c : Char}
    (ha : a.data.head? = some c) (hb : b.data.head? ≠ some c) : a ≠ b := by
  intro e
  exact hb (by rw [← e, ha])

theorem highCouplingMsg_head (n : String) :
    (highCouplingMsg n).data.head? = some 'H' := rfl

theorem misalignMsg_head (n : String) :
    (misalignMsg n).data.head? = some 'L' := rfl

theorem circularMsg_head (s t : String) :
    (circularMsg s t).data.head? = some 'C' := rfl

theorem mem_lookupTable {tbl : List (String × List String)} {k : String}
    {l : List String} (h : lookupTable tbl k = some l) : ∃ p ∈ tbl, p.2 = l := by
  unfold lookupTable at h
  cases hf : tbl.find? (fun p => p.1 == k) with
  | none => rw [hf] at h; exact absurd h (by simp)
  | some p =>
    rw [hf] at h
    exact ⟨p, List.mem_of_find?_eq_some hf, Option.some.inj h⟩

/-- Every static element-risk string starts with a character other than
`'H'` and `'L'`, so neither dynamically built element risk string can
collide with one. -/
theorem elem_static_head {ot : Option String} {s : String}
    (h : s ∈ elementStaticRisks ot) :
    s.data.head? ≠ some 'H' ∧ s.data.head? ≠ some 'L' := by
  cases ot with
  | none => exact absurd h (by simp [elementStaticRisks])
  | some t =>
    simp only [elementStaticRisks] at h
    cases hl : lookupTable elementRisksTable t with
    | none => rw [hl] at h; exact absurd h (by simp)
    | some l =>
      rw [hl] at h
      simp only [Option.getD_some] at h
      obtain ⟨p, hp, rfl⟩ := mem_lookupTable hl
      fin_cases hp <;>
        (simp only [List.mem_cons, List.not_mem_nil, or_false] at h;
         rcases h with h | h | h | h <;> (subst h; exact ⟨by decide, by decide⟩))

/-- Same for the static relationship-risk strings. -/
theorem rel_static_head {ot : Option String} {s : String}
    (h : s ∈ relStaticRisks ot) :
    s.data.head? ≠ some 'H' ∧ s.data.head? ≠ some 'L' ∧
      s.data.head? ≠ some 'C' := by
  cases ot with
  | none => exact absurd h (by simp [relStaticRisks])
  | some t =>
    simp only [relStaticRisks] at h
    cases hl : lookupTable relationshipRisksTable t with
    | none => rw [hl] at h; exact absurd h (by simp)
    | some l =>
      rw [hl] at h
      simp only [Option.getD_some] at h
      obtain ⟨p, hp, rfl⟩ := mem_lookupTable hl
      fin_cases hp <;>
        (simp only [List.mem_cons, List.not_mem_nil, or_false] at h;
         rcases h with h | h | h <;> (subst h; exact ⟨by decide, by decide, by decide⟩))

theorem highCouplingMsg_not_static (ot : Option String) (n : String) :
    highCouplingMsg n ∉ elementStaticRisks ot := by
  intro h
  exact (elem_static_head h).1 (highCouplingMsg_head n)

theorem misalignMsg_not_static (ot : Option String) (n : String) :
    misalignMsg n ∉ elementStaticRisks ot := by
  intro h
  exact (elem_static_head h).2 (misalignMsg_head n)

theorem circularMsg_not_static (ot : Option String) (a b : String) :
    circularMsg a b ∉ relStaticRisks ot := by
  intro h
  exact (rel_static_head h).2.2 (circularMsg_head a b)

theorem highCouplingMsg_ne_misalignMsg (n m : String) :
    highCouplingMsg n ≠ misalignMsg m :=
  str_ne_of_head (highCouplingMsg_head n) (by rw [misalignMsg_head]; decide)


/-! ## Recommendation classification -/

theorem foldl_categorize (risks : List String) :
    ∀ init : RiskCategories,
      (risks.foldl categorizeRisk init).architecture =
        init.architecture ++ risks.filter (matchesKeywords archKeywords) ∧
      (risks.foldl categorizeRisk init).integration =
        init.integration ++ risks.filter
          (fun r => !matchesKeywords archKeywords r &&
            matchesKeywords integrationKeywords r) := by
  induction risks with
  | nil => intro init; simp
  | cons r rs ih =>
    intro init
    simp only [List.foldl_cons, List.filter_cons]
    cases h1 : matchesKeywords archKeywords r <;>
      cases h2 : matchesKeywords integrationKeywords r <;>
      cases h3 : matchesKeywords securityKeywords r <;>
      cases h4 : matchesKeywords performanceKeywords r <;>
      simp [categorizeRisk, h1, h2, h3, h4, ih, List.append_assoc]


/-! ## Layer statistics -/

theorem bumpDeps_ok :
    ∀ (stats : List (String × Nat × Nat)) (k : String),
      k ∈ stats.map (fun p => p.1) →
      ∃ out, bumpDeps stats k = Except.ok out ∧
        out.map (fun p => p.1) = stats.map (fun p => p.1) ∧
        ∀ l, statsDeps out l = statsDeps stats l + (if l = k then 1 else 0) := by
  intro stats
  induction stats with
  | nil => intro k hk; exact absurd hk (by simp)
  | cons a rest ih =>
    intro k hk
    obtain ⟨al, aes, ads⟩ := a
    cases hak : al == k with
    | true =>
      refine ⟨(al, aes, ads + 1) :: rest, ?_, by simp, ?_⟩
      · simp [bumpDeps, hak]
      · intro l
        have halk : al = k := by simpa using hak
        subst halk
        cases hla : al == l with
        | true =>
          have : al = l := by simpa using hla
          subst this
          simp [statsDeps, List.find?_cons, hla]
        | false =>
          have hne : l ≠ al := fun e => by simp [e] at hla
          simp [statsDeps, List.find?_cons, hla, hne]
    | false =>
      have hk' : k = al ∨ k ∈ rest.map (fun p => p.1) := by
        rw [List.map_cons, List.mem_cons] at hk; exact hk
      have hkr : k ∈ rest.map (fun p => p.1) := by
        rcases hk' with h | h
        · subst h; simp at hak
        · exact h
      obtain ⟨out, hout, hkeys, hdeps⟩ := ih k hkr
      refine ⟨(al, aes, ads) :: out, ?_, by simpa using hkeys, ?_⟩
      · unfold bumpDeps; rw [hak, hout]; rfl
      · intro l
        cases hla : al == l with
        | true =>
          have : al = l := by simpa using hla
          subst this
          have hne : al ≠ k := fun e => by simp [e] at hak
          simp [statsDeps, List.find?_cons, hla, hne]
        | false =>
          simp only [statsDeps, List.find?_cons, hla]
          exact hdeps l


/-! ## Element analysis -/

theorem ok_bind {ε α β : Type} (a : α) (f : α → Except ε β) :
    (Except.ok a : Except ε α) >>= f = f a := rfl

theorem checkLayerAlignmentGo_ok (st : Analyzer) (e : ArchiMateElement) :
    ∀ ns : List String, (∀ n ∈ ns, (lookupElem st n).isSome = true) →
      checkLayerAlignmentGo st e ns =
        Except.ok (!(ns.any (misalignedWithB st e))) := by
  intro ns
  induction ns with
  | nil => intro _; rfl
  | cons n rest ih =>
    intro h
    have hn : (lookupElem st n).isSome = true := h n (List.mem_cons_self n rest)
    cases hlk : lookupElem st n with
    | none => rw [hlk] at hn; exact absurd hn (by simp)
    | some ne =>
      have hek : elemKey st n = Except.ok ne := by unfold elemKey; rw [hlk]
      have hrest := ih (fun m hm => h m (List.mem_cons_of_mem n hm))
      simp only [checkLayerAlignmentGo, hek, ok_bind, List.any_cons]
      by_cases hc : 1 < (getLayerLevel e.layer - getLayerLevel ne.layer).natAbs
      · rw [if_pos hc]
        have hm : misalignedWithB st e n = true := by
          unfold misalignedWithB; rw [hlk]; simpa using hc
        rw [hm]
        rfl
      · rw [if_neg hc, hrest]
        have hm : misalignedWithB st e n = false := by
          unfold misalignedWithB; rw [hlk]; simpa using hc
        rw [hm]
        rfl

theorem mapM_elemKey_ok (st : Analyzer) :
    ∀ ns : List String, (∀ n ∈ ns, (lookupElem st n).isSome = true) →
      ns.mapM (elemKey st) = Except.ok (ns.filterMap (lookupElem st)) := by
  intro ns
  induction ns with
  | nil => intro _; rfl
  | cons n rest ih =>
    intro h
    have hn : (lookupElem st n).isSome = true := h n (List.mem_cons_self n rest)
    cases hlk : lookupElem st n with
    | none => rw [hlk] at hn; exact absurd hn (by simp)
    | some ne =>
      have hek : elemKey st n = Except.ok ne := by unfold elemKey; rw [hlk]
      have hrest := ih (fun m hm => h m (List.mem_cons_of_mem n hm))
      rw [List.mapM_cons, hek, ok_bind, hrest, ok_bind]
      simp only [List.filterMap_cons, hlk]
      rfl


theorem bool_ite_flip (b : Bool) (m : String) :
    (if (!b) = true then ([] : List String) else [m]) =
      (if b = true then [m] else []) := by
  cases b <;> rfl

theorem complexityScore_ok (st : Analyzer) (e : ArchiMateElement)
    (hsucc : ∀ n ∈ st.graph.successors e.id, (lookupElem st n).isSome = true) :
    complexityScore st e = Except.ok
      (round2 (0 + ((e.relationships.length : ℚ)) * (3/2)
        + ((((st.graph.successors e.id).filterMap (lookupElem st)).filter
            (fun ne => ne.layer != e.layer)).length : ℚ) * 2
        + ((e.properties.length : ℚ)) * (1/2))) := by
  unfold complexityScore
  rw [mapM_elemKey_ok st _ hsucc, ok_bind]
  rfl

theorem elementReport_ok (st : Analyzer) (e : ArchiMateElement)
    (hnode : e.id ∈ st.graph.nodes)
    (hsucc : ∀ n ∈ st.graph.successors e.id, (lookupElem st n).isSome = true) :
    elementReport st e = Except.ok
      ⟨e.id, e.name, e.etype, e.layer,
        elementStaticRisks e.etype ++
          (if 5 < (st.graph.successors e.id).length
           then [highCouplingMsg e.name] else []) ++
          (if (st.graph.successors e.id).any (misalignedWithB st e)
           then [misalignMsg e.name] else []),
        round2 (0 + ((e.relationships.length : ℚ)) * (3/2)
          + ((((st.graph.successors e.id).filterMap (lookupElem st)).filter
              (fun ne => ne.layer != e.layer)).length : ℚ) * 2
          + ((e.properties.length : ℚ)) * (1/2))⟩ := by
  have hca : checkLayerAlignment st e =
      Except.ok (!((st.graph.successors e.id).any (misalignedWithB st e))) :=
    checkLayerAlignmentGo_ok st e _ hsucc
  unfold elementReport
  rw [if_pos hnode, hca, ok_bind, complexityScore_ok st e hsucc, ok_bind,
    bool_ite_flip]
  rfl


/-! ## Reachability -/

theorem foldl_stepFold_append (es : List (String × String)) :
    ∀ acc : List String, ∃ r, es.foldl stepFold acc = acc ++ r := by
  induction es with
  | nil => intro acc; exact ⟨[], by simp⟩
  | cons e es ih =>
    intro acc
    rw [List.foldl_cons]
    by_cases h : e.1 ∈ acc ∧ e.2 ∉ acc
    · have hs : stepFold acc e = acc ++ [e.2] := by
        unfold stepFold; rw [if_pos h]
      rw [hs]
      obtain ⟨r, hr⟩ := ih (acc ++ [e.2])
      exact ⟨[e.2] ++ r, by rw [hr, List.append_assoc]⟩
    · have hs : stepFold acc e = acc := by
        unfold stepFold; rw [if_neg h]
      rw [hs]
      exact ih acc

theorem mem_foldl_stepFold {es : List (String × String)} {acc : List String}
    {a : String} (h : a ∈ acc) : a ∈ es.foldl stepFold acc := by
  obtain ⟨r, hr⟩ := foldl_stepFold_append es acc
  rw [hr]
  exact List.mem_append_left r h

theorem mem_step_of_mem {g : Graph} {vs : List String} {a : String}
    (h : a ∈ vs) : a ∈ g.step vs :=
  mem_foldl_stepFold h

theorem mem_stepFold_of_mem {acc : List String} {e : String × String}
    {a : String} (h : a ∈ acc) : a ∈ stepFold acc e := by
  unfold stepFold
  by_cases hc : e.1 ∈ acc ∧ e.2 ∉ acc
  · rw [if_pos hc]
    exact List.mem_append_left _ h
  · rw [if_neg hc]
    exact h

theorem foldl_stepFold_adds :
    ∀ (es : List (String × String)) (acc : List String) (x y : String),
      (x, y) ∈ es → x ∈ acc → y ∈ es.foldl stepFold acc := by
  intro es
  induction es with
  | nil => intro acc x y hmem _; exact absurd hmem (List.not_mem_nil _)
  | cons e es' ih =>
    intro acc x y hmem hx
    rw [List.foldl_cons]
    rcases List.mem_cons.mp hmem with he | h'
    · have he1 : e.1 = x := by rw [← he]
      have he2 : e.2 = y := by rw [← he]
      by_cases hc : e.1 ∈ acc ∧ e.2 ∉ acc
      · have hs : stepFold acc e = acc ++ [e.2] := by
          unfold stepFold; rw [if_pos hc]
        rw [hs]
        apply mem_foldl_stepFold
        rw [← he2]
        exact List.mem_append_right acc (List.mem_singleton.mpr rfl)
      · have hs : stepFold acc e = acc := by
          unfold stepFold; rw [if_neg hc]
        rw [hs]
        apply mem_foldl_stepFold
        rw [he1] at hc
        by_contra hy
        rw [← he2] at hy
        exact hc ⟨hx, hy⟩
    · exact ih (stepFold acc e) x y h' (mem_stepFold_of_mem hx)

theorem closure_succ (g : Graph) :
    ∀ (n : Nat) (vs : List String),
      g.closure (n + 1) vs = g.step (g.closure n vs) := by
  intro n
  induction n with
  | zero => intro vs; rfl
  | succ m ih =>
    intro vs
    have h1 : g.closure (m + 1 + 1) vs = g.closure (m + 1) (g.step vs) := rfl
    rw [h1, ih (g.step vs)]
    rfl

theorem subset_graph_closure (g : Graph) :
    ∀ (n : Nat) (vs : List String), vs ⊆ g.closure n vs := by
  intro n
  induction n with
  | zero => intro vs a ha; exact ha
  | succ m ih =>
    intro vs a ha
    show a ∈ g.closure m (g.step vs)
    exact ih (g.step vs) (mem_step_of_mem ha)

theorem step_fix_closure (g : Graph) {vs : List String} (h : g.step vs = vs) :
    ∀ n, g.closure n vs = vs := by
  intro n
  induction n with
  | zero => rfl
  | succ m ih =>
    show g.closure m (g.step vs) = vs
    rw [h]
    exact ih

theorem fix_closed {g : Graph} {vs : List String} (hfix : g.step vs = vs)
    {x y : String} (hxy : (x, y) ∈ g.edges) (hx : x ∈ vs) : y ∈ vs := by
  rw [← hfix]
  exact foldl_stepFold_adds g.edges vs x y hxy hx

theorem foldl_stepFold_nodup_subset (nodes : List String) :
    ∀ (es : List (String × String)) (acc : List String),
      acc.Nodup → acc ⊆ nodes → (∀ e ∈ es, e.2 ∈ nodes) →
      (es.foldl stepFold acc).Nodup ∧ es.foldl stepFold acc ⊆ nodes := by
  intro es
  induction es with
  | nil => intro acc h1 h2 _; exact ⟨h1, h2⟩
  | cons e es' ih =>
    intro acc h1 h2 h3
    rw [List.foldl_cons]
    by_cases hc : e.1 ∈ acc ∧ e.2 ∉ acc
    · have hs : stepFold acc e = acc ++ [e.2] := by
        unfold stepFold; rw [if_pos hc]
      rw [hs]
      apply ih
      · exact List.Nodup.append h1 (List.nodup_singleton _)
          (by simpa using hc.2)
      · intro a ha
        rcases List.mem_append.mp ha with h | h
        · exact h2 h
        · rw [List.mem_singleton.mp h]
          exact h3 e (List.mem_cons_self _ _)
      · intro e' he'
        exact h3 e' (List.mem_cons_of_mem _ he')
    · have hs : stepFold acc e = acc := by
        unfold stepFold; rw [if_neg hc]
      rw [hs]
      exact ih acc h1 h2 (fun e' he' => h3 e' (List.mem_cons_of_mem _ he'))

theorem closure_nodup_subset (g : Graph) (hWF : WFGraph g) :
    ∀ (n : Nat) (vs : List String), vs.Nodup → vs ⊆ g.nodes →
      (g.closure n vs).Nodup ∧ g.closure n vs ⊆ g.nodes := by
  intro n
  induction n with
  | zero => intro vs h1 h2; exact ⟨h1, h2⟩
  | succ m ih =>
    intro vs h1 h2
    have hstep := foldl_stepFold_nodup_subset g.nodes g.edges vs h1 h2
      (fun e he => (hWF.2 e he).2)
    exact ih (g.step vs) hstep.1 hstep.2

theorem step_fix_or_grow (g : Graph) (vs : List String) :
    g.step vs = vs ∨ vs.length < (g.step vs).length := by
  obtain ⟨r, hr⟩ := foldl_stepFold_append g.edges vs
  cases r with
  | nil =>
    left
    show g.edges.foldl stepFold vs = vs
    rw [hr, List.append_nil]
  | cons a r' =>
    right
    show vs.length < (g.edges.foldl stepFold vs).length
    rw [hr, List.length_append]
    simp

theorem closure_saturates (g : Graph) (a : String) :
    ∀ n, g.step (g.closure n [a]) = g.closure n [a] ∨
      n + 1 ≤ (g.closure n [a]).length := by
  intro n
  induction n with
  | zero => right; exact le_refl 1
  | succ m ih =>
    rcases ih with hfix | hlen
    · left
      have heq : g.closure (m + 1) [a] = g.closure m [a] := by
        rw [closure_succ, hfix]
      rw [heq, hfix]
    · rcases step_fix_or_grow g (g.closure m [a]) with hfix | hgrow
      · left
        have heq : g.closure (m + 1) [a] = g.closure m [a] := by
          rw [closure_succ, hfix]
        rw [heq]
        exact hfix
      · right
        rw [closure_succ]
        omega

theorem closure_fix_at_card {g : Graph} (hWF : WFGraph g) {a : String}
    (ha : a ∈ g.nodes) :
    g.step (g.closure g.nodes.length [a]) = g.closure g.nodes.length [a] := by
  rcases closure_saturates g a g.nodes.length with h | h
  · exact h
  · exfalso
    have hns := closure_nodup_subset g hWF g.nodes.length [a]
      (List.nodup_singleton a) (by simpa using ha)
    have hle := List.Subperm.length_le (List.subperm_of_subset hns.1 hns.2)
    omega

theorem foldl_stepFold_sound {g : Graph} {a : String} :
    ∀ (es : List (String × String)), (∀ e ∈ es, e ∈ g.edges) →
      ∀ (acc : List String),
        (∀ x ∈ acc, Relation.ReflTransGen (edgeRel g) a x) →
      ∀ x ∈ es.foldl stepFold acc, Relation.ReflTransGen (edgeRel g) a x := by
  intro es
  induction es with
  | nil => intro _ acc hacc x hx; exact hacc x hx
  | cons e es' ih =>
    intro hes acc hacc x hx
    rw [List.foldl_cons] at hx
    refine ih (fun e' he' => hes e' (List.mem_cons_of_mem _ he')) _ ?_ x hx
    intro y hy
    by_cases hc : e.1 ∈ acc ∧ e.2 ∉ acc
    · have hs : stepFold acc e = acc ++ [e.2] := by
        unfold stepFold; rw [if_pos hc]
      rw [hs] at hy
      rcases List.mem_append.mp hy with h | h
      · exact hacc y h
      · rw [List.mem_singleton.mp h]
        refine (hacc e.1 hc.1).tail ?_
        show (e.1, e.2) ∈ g.edges
        rw [Prod.mk.eta]
        exact hes e (List.mem_cons_self _ _)
    · have hs : stepFold acc e = acc := by
        unfold stepFold; rw [if_neg hc]
      rw [hs] at hy
      exact hacc y hy

theorem closure_sound {g : Graph} {a : String} :
    ∀ (n : Nat) (vs : List String),
      (∀ x ∈ vs, Relation.ReflTransGen (edgeRel g) a x) →
      ∀ x ∈ g.closure n vs, Relation.ReflTransGen (edgeRel g) a x := by
  intro n
  induction n with
  | zero => intro vs h x hx; exact h x hx
  | succ m ih =>
    intro vs h x hx
    exact ih (g.step vs) (foldl_stepFold_sound g.edges (fun _ he => he) vs h) x hx

theorem reachable_sound {g : Graph} {a b : String}
    (h : g.reachable a b = true) : Relation.ReflTransGen (edgeRel g) a b := by
  unfold Graph.reachable at h
  rw [decide_eq_true_eq] at h
  refine closure_sound g.nodes.length [a] ?_ b h
  intro x hx
  rw [List.mem_singleton.mp hx]

theorem reachable_complete {g : Graph} (hWF : WFGraph g) {a b : String}
    (ha : a ∈ g.nodes)
    (h : Relation.ReflTransGen (edgeRel g) a b) : g.reachable a b = true := by
  unfold Graph.reachable
  rw [decide_eq_true_eq]
  have hfix := closure_fix_at_card hWF ha
  induction h with
  | refl => exact subset_graph_closure g g.nodes.length [a] (List.mem_singleton.mpr rfl)
  | tail _ hbc ihmem => exact fix_closed hfix hbc ihmem

theorem reachable_iff {g : Graph} (hWF : WFGraph g) {a b : String}
    (ha : a ∈ g.nodes) :
    g.reachable a b = true ↔ Relation.ReflTransGen (edgeRel g) a b :=
  ⟨reachable_sound, reachable_complete hWF ha⟩

theorem reachable_self (g : Graph) (a : String) : g.reachable a a = true := by
  unfold Graph.reachable
  rw [decide_eq_true_eq]
  exact subset_graph_closure g g.nodes.length [a] (List.mem_singleton.mpr rfl)


/-! ## Relationship analysis -/

theorem relReport_ok (st : Analyzer) (r : RelEntry) {se te : ArchiMateElement}
    (hse : lookupElem st r.source = some se)
    (hte : lookupElem st r.target = some te)
    (hsn : r.source ∈ st.graph.nodes) (htn : r.target ∈ st.graph.nodes) :
    relReport st r = Except.ok
      ⟨r.id, se.name, te.name, r.rtype,
        relStaticRisks r.rtype ++
          (if st.graph.reachable r.target r.source
           then [circularMsg se.name te.name] else [])⟩ := by
  have hek1 : elemKey st r.source = Except.ok se := by unfold elemKey; rw [hse]
  have hek2 : elemKey st r.target = Except.ok te := by unfold elemKey; rw [hte]
  have hcd : hasCircularDependency st r.source r.target =
      Except.ok (st.graph.reachable r.target r.source) := by
    unfold hasCircularDependency
    rw [if_pos ⟨htn, hsn⟩]
  unfold relReport
  rw [hcd, ok_bind, hek1, ok_bind, hek2, ok_bind]
  rfl

/-! ## Parsing -/

theorem findElem_isSome_iff (es : List ArchiMateElement) (i : String) :
    (findElem es i).isSome = true ↔ ∃ e ∈ es, e.id = i := by
  simp [findElem, List.find?_isSome]

theorem findRel_isSome_iff (rs : List RelEntry) (i : String) :
    ((rs.find? (fun r => r.id == i)).isSome) = true ↔ ∃ r ∈ rs, r.id = i := by
  simp [List.find?_isSome]

theorem mem_id_upsertElement {es : List ArchiMateElement}
    (e : ArchiMateElement) {i : String} (h : ∃ x ∈ es, x.id = i) :
    ∃ y ∈ upsertElement es e, y.id = i := by
  induction es with
  | nil =>
    obtain ⟨x, hx, _⟩ := h
    exact absurd hx (List.not_mem_nil x)
  | cons a as ih =>
    obtain ⟨x, hx, hid⟩ := h
    cases hae : a.id == e.id with
    | true =>
      have haee : a.id = e.id := by simpa using hae
      have hs : upsertElement (a :: as) e = e :: as := by
        simp [upsertElement, hae]
      rw [hs]
      rcases List.mem_cons.mp hx with rfl | hxs
      · exact ⟨e, List.mem_cons_self _ _, by rw [← haee]; exact hid⟩
      · exact ⟨x, List.mem_cons_of_mem _ hxs, hid⟩
    | false =>
      have hs : upsertElement (a :: as) e = a :: upsertElement as e := by
        simp [upsertElement, hae]
      rw [hs]
      rcases List.mem_cons.mp hx with rfl | hxs
      · exact ⟨x, List.mem_cons_self _ _, hid⟩
      · obtain ⟨y, hy, hyid⟩ := ih ⟨x, hxs, hid⟩
        exact ⟨y, List.mem_cons_of_mem _ hy, hyid⟩

theorem mem_id_upsertRel {rs : List RelEntry} (e : RelEntry) {i : String}
    (h : ∃ x ∈ rs, x.id = i) : ∃ y ∈ upsertRel rs e, y.id = i := by
  induction rs with
  | nil =>
    obtain ⟨x, hx, _⟩ := h
    exact absurd hx (List.not_mem_nil x)
  | cons a as ih =>
    obtain ⟨x, hx, hid⟩ := h
    cases hae : a.id == e.id with
    | true =>
      have haee : a.id = e.id := by simpa using hae
      have hs : upsertRel (a :: as) e = e :: as := by
        simp [upsertRel, hae]
      rw [hs]
      rcases List.mem_cons.mp hx with rfl | hxs
      · exact ⟨e, List.mem_cons_self _ _, by rw [← haee]; exact hid⟩
      · exact ⟨x, List.mem_cons_of_mem _ hxs, hid⟩
    | false =>
      have hs : upsertRel (a :: as) e = a :: upsertRel as e := by
        simp [upsertRel, hae]
      rw [hs]
      rcases List.mem_cons.mp hx with rfl | hxs
      · exact ⟨x, List.mem_cons_self _ _, hid⟩
      · obtain ⟨y, hy, hyid⟩ := ih ⟨x, hxs, hid⟩
        exact ⟨y, List.mem_cons_of_mem _ hy, hyid⟩

theorem appendRelId_ids :
    ∀ (es : List ArchiMateElement) (i relId : String)
      (es' : List ArchiMateElement),
      appendRelId es i relId = Except.ok es' →
      es'.map (fun x => x.id) = es.map (fun x => x.id) := by
  intro es
  induction es with
  | nil =>
    intro i r es' h
    exact absurd h (by simp [appendRelId])
  | cons a as ih =>
    intro i r es' h
    cases hae : a.id == i with
    | true =>
      have hs : appendRelId (a :: as) i r =
          Except.ok ({ a with relationships := a.relationships ++ [r] } :: as) := by
        simp [appendRelId, hae]
      rw [hs] at h
      rw [← Except.ok.inj h]
      simp
    | false =>
      have hs : appendRelId (a :: as) i r =
          (appendRelId as i r).map (fun ys => a :: ys) := by
        simp [appendRelId, hae]
      rw [hs] at h
      cases hr : appendRelId as i r with
      | error e =>
        rw [hr] at h
        exact absurd h (by simp [Except.map])
      | ok ys =>
        rw [hr] at h
        have hok : a :: ys = es' := by
          have : Except.ok (a :: ys) = Except.ok es' := h
          exact Except.ok.inj this
        have hys := ih i r ys hr
        rw [← hok]
        simp [hys]


theorem foldlM_preserves {τ : Type} {f : Analyzer → τ → Except String Analyzer}
    {P : Analyzer → Prop}
    (hf : ∀ a r b, f a r = Except.ok b → P a → P b) :
    ∀ (l : List τ) (a b : Analyzer),
      List.foldlM f a l = Except.ok b → P a → P b := by
  intro l
  induction l with
  | nil =>
    intro a b h hp
    rw [List.foldlM_nil] at h
    have hab : a = b := Except.ok.inj h
    rwa [← hab]
  | cons x xs ih =>
    intro a b h hp
    rw [List.foldlM_cons] at h
    obtain ⟨a1, hx, hrest⟩ := except_bind_ok h
    exact ih a1 b hrest (hf a x a1 hx hp)

theorem parseElement_preserves {a : Analyzer} {rec : ElementRecord}
    {b : Analyzer} (h : parseElement a rec = Except.ok b) :
    (∀ i, (∃ x ∈ a.elements, x.id = i) → ∃ y ∈ b.elements, y.id = i) ∧
    b.relationships = a.relationships := by
  unfold parseElement at h
  cases hdl : determineLayer rec.etype with
  | error e =>
    rw [hdl] at h
    exact absurd h (by simp [Bind.bind, Except.bind])
  | ok layer =>
    rw [hdl, ok_bind] at h
    have hb : (⟨upsertElement a.elements
        ⟨rec.id, rec.name, rec.etype, layer, [], propsDict rec.properties⟩,
        a.relationships, a.graph.addNode rec.id⟩ : Analyzer) = b :=
      Except.ok.inj h
    rw [← hb]
    exact ⟨fun i hi => mem_id_upsertElement _ hi, rfl⟩

theorem parseRel_preserves {a : Analyzer} {rec : RelRecord} {b : Analyzer}
    (h : parseRel a rec = Except.ok b) :
    b.elements.map (fun x => x.id) = a.elements.map (fun x => x.id) ∧
    (∀ i, (∃ x ∈ a.relationships, x.id = i) → ∃ y ∈ b.relationships, y.id = i) := by
  unfold parseRel at h
  obtain ⟨es1, h1, h'⟩ := except_bind_ok h
  obtain ⟨es2, h2, h''⟩ := except_bind_ok h'
  have hb : (⟨es2, upsertRel a.relationships
      ⟨rec.id, rec.source, rec.target, rec.rtype⟩,
      a.graph.addEdge rec.source rec.target⟩ : Analyzer) = b :=
    Except.ok.inj h''
  rw [← hb]
  refine ⟨?_, fun i hi => mem_id_upsertRel _ hi⟩
  show es2.map (fun x => x.id) = a.elements.map (fun x => x.id)
  rw [appendRelId_ids es1 rec.target rec.id es2 h2,
    appendRelId_ids a.elements rec.source rec.id es1 h1]


/-! ## Claim theorems -/

/-- C1 (counterexample): in the parsed model `c1src`, element `x` has six
predecessors and no successor — a combined neighbor count above the
threshold — yet its element report carries no risk string at all, so the
high-coupling risk is absent although the claim requires it. -/
theorem C1_counterexample :
    (parseModel emptyAnalyzer c1src).isOk = true ∧
    5 < (c1state.graph.successors "x").length +
        (c1state.graph.predecessors "x").length ∧
    (analyzeElements c1state).map (fun l => l.map (fun r => (r.name, r.risks))) =
      Except.ok [("x", []), ("p1", []), ("p2", []), ("p3", []), ("p4", []),
                 ("p5", []), ("p6", [])] := by
  decide

/-- C1 (amended): the element report of `E` contains the high-coupling
risk string iff `E`'s *successor* count — what `DiGraph.neighbors`
returns — is strictly greater than 5; predecessors are not counted. -/
theorem C1_high_coupling_amended (st : Analyzer) (e : ArchiMateElement)
    (hnode : e.id ∈ st.graph.nodes)
    (hsucc : ∀ n ∈ st.graph.successors e.id, (lookupElem st n).isSome = true) :
    ∃ r, elementReport st e = Except.ok r ∧
      (highCouplingMsg e.name ∈ r.risks ↔
        5 < (st.graph.successors e.id).length) := by
  refine ⟨_, elementReport_ok st e hnode hsucc, ?_⟩
  constructor
  · intro hmem
    rcases List.mem_append.mp hmem with h1 | h2
    · rcases List.mem_append.mp h1 with h0 | hc
      · exact absurd h0 (highCouplingMsg_not_static _ _)
      · by_cases h5 : 5 < (st.graph.successors e.id).length
        · exact h5
        · rw [if_neg h5] at hc
          exact absurd hc (List.not_mem_nil _)
    · by_cases hma : (st.graph.successors e.id).any (misalignedWithB st e) = true
      · rw [if_pos hma] at h2
        exact absurd (List.mem_singleton.mp h2)
          (highCouplingMsg_ne_misalignMsg _ _)
      · rw [if_neg hma] at h2
        exact absurd h2 (List.not_mem_nil _)
  · intro h5
    refine List.mem_append.mpr (Or.inl (List.mem_append.mpr (Or.inr ?_)))
    rw [if_pos h5]
    exact List.mem_singleton.mpr rfl

/-- C1 (witness): element `x` of `c1wState` has six successors, and its
report carries the high-coupling risk string. -/
theorem C1_high_coupling_amended_witness :
    (⟨"x", "x", none, "technology", [], []⟩ : ArchiMateElement).id ∈
      c1wState.graph.nodes ∧
    (∀ n ∈ c1wState.graph.successors "x",
      (lookupElem c1wState n).isSome = true) ∧
    ∃ r, elementReport c1wState ⟨"x", "x", none, "technology", [], []⟩ =
        Except.ok r ∧
      (highCouplingMsg "x" ∈ r.risks ↔
        5 < (c1wState.graph.successors "x").length) :=
  ⟨by decide, by decide,
    C1_high_coupling_amended c1wState ⟨"x", "x", none, "technology", [], []⟩
      (by decide) (by decide)⟩

/-- C2 (counterexample): the risk list `["Security vulnerabilities"]`
matches the security keyword set (and no earlier category), yet the
recommendation output is empty — no security entry is ever emitted. -/
theorem C2_counterexample :
    generateRecommendations ["Security vulnerabilities"] = [] ∧
    matchesKeywords securityKeywords "Security vulnerabilities" = true ∧
    matchesKeywords archKeywords "Security vulnerabilities" = false ∧
    matchesKeywords integrationKeywords "Security vulnerabilities" = false := by
  decide

/-- C2 (amended): the recommendation output is exactly an architecture
entry (iff some risk matches the architecture keywords) followed by an
integration entry (iff some risk matches the integration keywords but not
the architecture ones, first-match-wins); each entry carries the category
name, the matched risks in order, and the fixed suggestion catalog.
Security and performance matches are collected but never emitted, so the
output has between 0 and 2 entries. -/
theorem C2_recommendations_amended (risks : List String) :
    generateRecommendations risks =
      (if (risks.filter (matchesKeywords archKeywords)).isEmpty then []
       else [⟨"Architecture", risks.filter (matchesKeywords archKeywords),
              archSuggestions⟩]) ++
      (if (risks.filter (fun r => !matchesKeywords archKeywords r &&
              matchesKeywords integrationKeywords r)).isEmpty then []
       else [⟨"Integration",
              risks.filter (fun r => !matchesKeywords archKeywords r &&
                matchesKeywords integrationKeywords r),
              integrationSuggestions⟩]) := by
  obtain ⟨ha, hi⟩ := foldl_categorize risks ⟨[], [], [], []⟩
  simp only [generateRecommendations]
  rw [ha, hi]
  simp

/-- C3: the post-parse pipeline is not total — on the successfully
parsed model `c3src`, whose relationship joins a business element to an
unknown-layer element, the layer-aggregation pass raises `KeyError`, so
`analyze_model` fails. -/
theorem C3_pipeline_keyerror :
    ((parseModel emptyAnalyzer c3src) >>= analyzeModel) =
      Except.error "KeyError" ∧
    (parseModel emptyAnalyzer c3src).isOk = true := by
  decide

/-- C7 (counterexample): on an absent type tag, `_determine_layer`
raises `AttributeError` (from `None.lower()`) instead of returning
`unknown`. -/
theorem C7_counterexample :
    determineLayer none = Except.error "AttributeError" ∧
    determineLayer none ≠ Except.ok "unknown" := by
  decide

/-- C7 (amended): on every *present* type tag the classification
lower-cases the tag and returns the first layer, in the order business,
application, technology, with a substring match, else `unknown`; the
empty tag yields `unknown`.  An absent tag is an error (see the
counterexample), not `unknown`. -/
theorem C7_determine_layer_amended (s : String) :
    determineLayer (some s) = Except.ok
      (if ["business-actor", "business-role", "business-process",
           "business-function"].any (fun t => strContains (strLower s) t)
       then "business"
       else if ["application-component", "application-service",
                "application-interface"].any
                 (fun t => strContains (strLower s) t)
       then "application"
       else if ["node", "device", "system-software",
                "technology-service"].any (fun t => strContains (strLower s) t)
       then "technology"
       else "unknown") ∧
    determineLayer (some "") = Except.ok "unknown" := by
  constructor
  · rfl
  · decide


/-- C4 (counterexample): in the parsed model `c4src`, element `B` has the
business element `A` as a graph neighbor (its predecessor) at layer-level
distance 2, yet `B`'s report carries no layer-misalignment string — the
code inspects successors only, so only `A` is flagged. -/
theorem C4_counterexample :
    (parseModel emptyAnalyzer c4src).isOk = true ∧
    (c4state.graph.predecessors "b").any
      (misalignedWithB c4state
        ⟨"b", "B", some "node", "technology", ["r1"], []⟩) = true ∧
    (analyzeElements c4state).map
      (fun l => l.map (fun r => (r.name, r.risks.count (misalignMsg r.name)))) =
      Except.ok [("A", 1), ("B", 0)] := by
  decide

/-- C4 (amended): the element report of `E` contains the
layer-misalignment risk string exactly once when some graph *successor*
of `E` has a layer level differing from `E`'s by more than 1, and not at
all otherwise — at most one such string regardless of how many
successors are misaligned; predecessors are not inspected. -/
theorem C4_layer_misalignment (st : Analyzer) (e : ArchiMateElement)
    (hnode : e.id ∈ st.graph.nodes)
    (hsucc : ∀ n ∈ st.graph.successors e.id, (lookupElem st n).isSome = true) :
    ∃ r, elementReport st e = Except.ok r ∧
      r.risks.count (misalignMsg e.name) =
        (if (st.graph.successors e.id).any (misalignedWithB st e)
         then 1 else 0) := by
  refine ⟨_, elementReport_ok st e hnode hsucc, ?_⟩
  show (elementStaticRisks e.etype ++ _ ++ _).count (misalignMsg e.name) = _
  rw [List.count_append, List.count_append]
  have h0 : (elementStaticRisks e.etype).count (misalignMsg e.name) = 0 :=
    List.count_eq_zero.mpr (misalignMsg_not_static _ _)
  have h1 : (if 5 < (st.graph.successors e.id).length
      then [highCouplingMsg e.name] else []).count (misalignMsg e.name) = 0 := by
    by_cases h5 : 5 < (st.graph.successors e.id).length
    · rw [if_pos h5]
      refine List.count_eq_zero.mpr ?_
      intro hm
      exact highCouplingMsg_ne_misalignMsg e.name e.name
        (List.mem_singleton.mp hm).symm
    · rw [if_neg h5]
      rfl
  have h2 : (if (st.graph.successors e.id).any (misalignedWithB st e)
      then [misalignMsg e.name] else []).count (misalignMsg e.name) =
      (if (st.graph.successors e.id).any (misalignedWithB st e)
       then 1 else 0) := by
    by_cases hma : (st.graph.successors e.id).any (misalignedWithB st e) = true
    · rw [if_pos hma, if_pos hma, List.count_singleton]
      simp
    · rw [if_neg hma, if_neg hma]
      rfl
  rw [h0, h1, h2]
  omega

/-- C4 (witness): in `c4wState` the business element `a` has the
technology element `b` as neighbor (level gap 2), and its report carries
the misalignment string exactly once. -/
theorem C4_layer_misalignment_witness :
    (⟨"a", "A", none, "business", [], []⟩ : ArchiMateElement).id ∈
      c4wState.graph.nodes ∧
    (∀ n ∈ c4wState.graph.successors "a",
      (lookupElem c4wState n).isSome = true) ∧
    ∃ r, elementReport c4wState ⟨"a", "A", none, "business", [], []⟩ =
        Except.ok r ∧
      r.risks.count (misalignMsg "A") =
        (if (c4wState.graph.successors "a").any
            (misalignedWithB c4wState ⟨"a", "A", none, "business", [], []⟩)
         then 1 else 0) :=
  ⟨by decide, by decide,
    C4_layer_misalignment c4wState ⟨"a", "A", none, "business", [], []⟩
      (by decide) (by decide)⟩

/-- C5: the relationship report of `R(S → T)` contains the
circular-dependency risk string iff a directed path from `T` back to `S`
exists in the graph (reflexive-transitive closure of the edge
relation). -/
theorem C5_circular_dependency (st : Analyzer) (r : RelEntry)
    (se te : ArchiMateElement) (hwf : WFGraph st.graph)
    (hse : lookupElem st r.source = some se)
    (hte : lookupElem st r.target = some te)
    (hsn : r.source ∈ st.graph.nodes) (htn : r.target ∈ st.graph.nodes) :
    ∃ rep, relReport st r = Except.ok rep ∧
      (circularMsg se.name te.name ∈ rep.risks ↔
        Relation.ReflTransGen (edgeRel st.graph) r.target r.source) := by
  refine ⟨_, relReport_ok st r hse hte hsn htn, ?_⟩
  rw [← reachable_iff hwf htn]
  constructor
  · intro hmem
    rcases List.mem_append.mp hmem with h0 | h1
    · exact absurd h0 (circularMsg_not_static _ _ _)
    · by_cases hr : st.graph.reachable r.target r.source = true
      · exact hr
      · rw [if_neg hr] at h1
        exact absurd h1 (List.not_mem_nil _)
  · intro hr
    refine List.mem_append.mpr (Or.inr ?_)
    rw [if_pos hr]
    exact List.mem_singleton.mpr rfl

/-- C5 (witness): in the cyclic state `c5wState` the report of
`r1 : a → b` carries the circular-dependency string, the edge `b → a`
providing the return path. -/
theorem C5_circular_dependency_witness :
    WFGraph c5wState.graph ∧
    lookupElem c5wState "a" =
      some ⟨"a", "A", none, "business", ["r1", "r2"], []⟩ ∧
    lookupElem c5wState "b" =
      some ⟨"b", "B", none, "business", ["r1", "r2"], []⟩ ∧
    ∃ rep, relReport c5wState c5wRel = Except.ok rep ∧
      (circularMsg "A" "B" ∈ rep.risks ↔
        Relation.ReflTransGen (edgeRel c5wState.graph) "b" "a") :=
  ⟨⟨by decide, by decide⟩, by decide, by decide,
    C5_circular_dependency c5wState c5wRel
      ⟨"a", "A", none, "business", ["r1", "r2"], []⟩
      ⟨"b", "B", none, "business", ["r1", "r2"], []⟩
      ⟨by decide, by decide⟩ (by decide) (by decide) (by decide) (by decide)⟩

/-- C6: the reported complexity score equals `1.5` times the length of
`E`'s relationship-id list plus `2` times the number of `E`'s graph
neighbors (successors) whose layer differs from `E`'s, plus `0.5` times
the number of `E`'s properties, rounded to two decimals, and it is
non-negative. -/
theorem C6_complexity_score (st : Analyzer) (e : ArchiMateElement)
    (hnode : e.id ∈ st.graph.nodes)
    (hsucc : ∀ n ∈ st.graph.successors e.id, (lookupElem st n).isSome = true) :
    ∃ r, elementReport st e = Except.ok r ∧
      r.complexity_score =
        round2 ((3/2) * (e.relationships.length : ℚ)
          + 2 * ((((st.graph.successors e.id).filterMap (lookupElem st)).filter
              (fun ne => ne.layer != e.layer)).length : ℚ)
          + (1/2) * (e.properties.length : ℚ)) ∧
      0 ≤ r.complexity_score := by
  refine ⟨_, elementReport_ok st e hnode hsucc, ?_, ?_⟩
  · show round2 _ = round2 _
    exact congrArg round2 (by ring)
  · show (0 : ℚ) ≤ round2 (0 + ((e.relationships.length : ℚ)) * (3/2)
      + ((((st.graph.successors e.id).filterMap (lookupElem st)).filter
          (fun ne => ne.layer != e.layer)).length : ℚ) * 2
      + ((e.properties.length : ℚ)) * (1/2))
    have hval : (0 + ((e.relationships.length : ℚ)) * (3/2)
        + ((((st.graph.successors e.id).filterMap (lookupElem st)).filter
            (fun ne => ne.layer != e.layer)).length : ℚ) * 2
        + ((e.properties.length : ℚ)) * (1/2)) =
        (((3 * e.relationships.length +
           4 * (((st.graph.successors e.id).filterMap (lookupElem st)).filter
             (fun ne => ne.layer != e.layer)).length +
           e.properties.length : ℕ) : ℚ)) / 2 := by
      push_cast
      ring
    rw [hval, round2_nat_half]
    positivity

/-- C6 (witness): element `a` of `c6wState` has one relationship, one
cross-layer neighbor and one property; its score obeys the formula and
is non-negative. -/
theorem C6_complexity_score_witness :
    (⟨"a", "A", none, "business", ["r1"], [("k", "v")]⟩ : ArchiMateElement).id ∈
      c6wState.graph.nodes ∧
    (∀ n ∈ c6wState.graph.successors "a",
      (lookupElem c6wState n).isSome = true) ∧
    ∃ r, elementReport c6wState
        ⟨"a", "A", none, "business", ["r1"], [("k", "v")]⟩ = Except.ok r ∧
      r.complexity_score =
        round2 ((3/2) * ((["r1"] : List String).length : ℚ)
          + 2 * ((((c6wState.graph.successors "a").filterMap
              (lookupElem c6wState)).filter
              (fun ne => ne.layer != "business")).length : ℚ)
          + (1/2) * (([("k", "v")] : List (String × String)).length : ℚ)) ∧
      0 ≤ r.complexity_score :=
  ⟨by decide, by decide,
    C6_complexity_score c6wState ⟨"a", "A", none, "business", ["r1"], [("k", "v")]⟩
      (by decide) (by decide)⟩

/-- C10: a self-loop relationship always receives the
circular-dependency risk string — the path query from target to source
succeeds trivially at the shared node. -/
theorem C10_self_loop_circular (st : Analyzer) (r : RelEntry)
    (se : ArchiMateElement) (hloop : r.source = r.target)
    (hse : lookupElem st r.source = some se)
    (htn : r.target ∈ st.graph.nodes) :
    ∃ rep, relReport st r = Except.ok rep ∧
      circularMsg se.name se.name ∈ rep.risks := by
  have hte : lookupElem st r.target = some se := by rw [← hloop]; exact hse
  have hsn : r.source ∈ st.graph.nodes := by rw [hloop]; exact htn
  refine ⟨_, relReport_ok st r hse hte hsn htn, ?_⟩
  refine List.mem_append.mpr (Or.inr ?_)
  have hreach : st.graph.reachable r.target r.source = true := by
    rw [hloop]
    exact reachable_self st.graph r.target
  rw [if_pos hreach]
  exact List.mem_singleton.mpr rfl

/-- C10 (witness): the self-loop `r1 : a → a` of `c10wState` is reported
with the circular-dependency string. -/
theorem C10_self_loop_circular_witness :
    c10wRel.source = c10wRel.target ∧
    lookupElem c10wState "a" =
      some ⟨"a", "A", none, "business", ["r1", "r1"], []⟩ ∧
    "a" ∈ c10wState.graph.nodes ∧
    ∃ rep, relReport c10wState c10wRel = Except.ok rep ∧
      circularMsg "A" "A" ∈ rep.risks :=
  ⟨by decide, by decide, by decide,
    C10_self_loop_circular c10wState c10wRel
      ⟨"a", "A", none, "business", ["r1", "r1"], []⟩
      (by decide) (by decide) (by decide)⟩


/-- C8 (counterexample): on the parsed model `c8src`, whose relationship
spans the unknown layer and the business layer (two different layers),
the layer aggregation raises `KeyError` instead of incrementing both
counters by one. -/
theorem C8_counterexample :
    ((parseModel emptyAnalyzer c8src) >>= analyzeLayers) =
      Except.error "KeyError" ∧
    (parseModel emptyAnalyzer c8src).isOk = true := by
  decide

/-- C8 (amended): for a relationship both of whose endpoint layers have
stats rows (the named layers business/application/technology do; unknown
does not), processing it during layer aggregation leaves every
dependency counter unchanged when the layers coincide, and increments
exactly the two endpoint layers' counters by one when they differ. -/
theorem C8_layer_deps_amended (st : Analyzer) (r : RelEntry)
    (stats : List (String × Nat × Nat)) (se te : ArchiMateElement)
    (hse : lookupElem st r.source = some se)
    (hte : lookupElem st r.target = some te) :
    (se.layer = te.layer → layerDepStep st stats r = Except.ok stats) ∧
    (se.layer ≠ te.layer → se.layer ∈ stats.map (fun p => p.1) →
      te.layer ∈ stats.map (fun p => p.1) →
      ∃ stats', layerDepStep st stats r = Except.ok stats' ∧
        ∀ l, statsDeps stats' l = statsDeps stats l +
          (if l = se.layer ∨ l = te.layer then 1 else 0)) := by
  have hek1 : elemKey st r.source = Except.ok se := by unfold elemKey; rw [hse]
  have hek2 : elemKey st r.target = Except.ok te := by unfold elemKey; rw [hte]
  constructor
  · intro heq
    unfold layerDepStep
    rw [hek1, ok_bind, hek2, ok_bind, if_neg (by simpa using heq)]
    rfl
  · intro hne hsk htk
    obtain ⟨out1, hout1, hkeys1, hdeps1⟩ := bumpDeps_ok stats se.layer hsk
    have htk1 : te.layer ∈ out1.map (fun p => p.1) := by rw [hkeys1]; exact htk
    obtain ⟨out2, hout2, _, hdeps2⟩ := bumpDeps_ok out1 te.layer htk1
    refine ⟨out2, ?_, ?_⟩
    · unfold layerDepStep
      rw [hek1, ok_bind, hek2, ok_bind, if_pos hne]
      rw [hout1, ok_bind, hout2]
    · intro l
      rw [hdeps2 l, hdeps1 l]
      by_cases hls : l = se.layer
      · have hlt : l ≠ te.layer := by rw [hls]; exact hne
        rw [if_pos hls, if_neg hlt, if_pos (Or.inl hls)]
      · by_cases hlt : l = te.layer
        · rw [if_neg hls, if_pos hlt, if_pos (Or.inr hlt)]
        · rw [if_neg hls, if_neg hlt,
            if_neg (fun hor => hor.elim (fun h => hls h) (fun h => hlt h))]

/-- C8 (witness): the cross-layer relationship `r1 : a(business) →
b(technology)` of `c8wState` bumps exactly the business and technology
dependency counters of the initial stats table. -/
theorem C8_layer_deps_amended_witness :
    lookupElem c8wState "a" = some ⟨"a", "A", none, "business", ["r1"], []⟩ ∧
    lookupElem c8wState "b" = some ⟨"b", "B", none, "technology", ["r1"], []⟩ ∧
    (("business" : String) = "technology" →
      layerDepStep c8wState initLayerStats c8wRel = Except.ok initLayerStats) ∧
    (("business" : String) ≠ "technology" →
      ("business" : String) ∈ initLayerStats.map (fun p => p.1) →
      ("technology" : String) ∈ initLayerStats.map (fun p => p.1) →
      ∃ stats', layerDepStep c8wState initLayerStats c8wRel = Except.ok stats' ∧
        ∀ l, statsDeps stats' l = statsDeps initLayerStats l +
          (if l = "business" ∨ l = "technology" then 1 else 0)) :=
  ⟨by decide, by decide,
    (C8_layer_deps_amended c8wState c8wRel initLayerStats
      ⟨"a", "A", none, "business", ["r1"], []⟩
      ⟨"b", "B", none, "technology", ["r1"], []⟩ (by decide) (by decide)).1,
    (C8_layer_deps_amended c8wState c8wRel initLayerStats
      ⟨"a", "A", none, "business", ["r1"], []⟩
      ⟨"b", "B", none, "technology", ["r1"], []⟩ (by decide) (by decide)).2⟩

/-- C9 (counterexample): parsing does not reset — after parsing `c9src1`
and then `c9src2` on the same instance the element store holds both
elements, while a fresh instance parsing only `c9src2` holds one, so the
two states differ. -/
theorem C9_counterexample :
    ((parseModel emptyAnalyzer c9src1) >>=
      (fun st => parseModel st c9src2)) ≠ parseModel emptyAnalyzer c9src2 ∧
    c9stB.elements.map (fun e => e.id) = ["e1", "e2"] ∧
    ((parseModel emptyAnalyzer c9src2).toOption.getD
      emptyAnalyzer).elements.map (fun e => e.id) = ["e2"] := by
  decide

/-- C9 (amended): parsing is additive — a successful
`parse_archimate_model` call preserves every element id and relationship
id already present in the instance's stores (so re-parsing accumulates
rather than resetting). -/
theorem C9_parse_accumulates (st : Analyzer) (src : ModelSource)
    (st' : Analyzer) (h : parseModel st src = Except.ok st') :
    (∀ i, (∃ x ∈ st.elements, x.id = i) → ∃ y ∈ st'.elements, y.id = i) ∧
    (∀ i, (∃ x ∈ st.relationships, x.id = i) →
      ∃ y ∈ st'.relationships, y.id = i) := by
  unfold parseModel at h
  obtain ⟨st1, h1, h2⟩ := except_bind_ok h
  have hstep1 : ∀ (a : Analyzer) (rec : ElementRecord) (b : Analyzer),
      parseElement a rec = Except.ok b →
      ((∀ i, (∃ x ∈ st.elements, x.id = i) → ∃ y ∈ a.elements, y.id = i) ∧
       (∀ i, (∃ x ∈ st.relationships, x.id = i) →
         ∃ y ∈ a.relationships, y.id = i)) →
      ((∀ i, (∃ x ∈ st.elements, x.id = i) → ∃ y ∈ b.elements, y.id = i) ∧
       (∀ i, (∃ x ∈ st.relationships, x.id = i) →
         ∃ y ∈ b.relationships, y.id = i)) := by
    intro a rec b hab hp
    obtain ⟨hel, hrel⟩ := parseElement_preserves hab
    refine ⟨fun i hi => hel i (hp.1 i hi), fun i hi => ?_⟩
    rw [hrel]
    exact hp.2 i hi
  have hstep2 : ∀ (a : Analyzer) (rec : RelRecord) (b : Analyzer),
      parseRel a rec = Except.ok b →
      ((∀ i, (∃ x ∈ st.elements, x.id = i) → ∃ y ∈ a.elements, y.id = i) ∧
       (∀ i, (∃ x ∈ st.relationships, x.id = i) →
         ∃ y ∈ a.relationships, y.id = i)) →
      ((∀ i, (∃ x ∈ st.elements, x.id = i) → ∃ y ∈ b.elements, y.id = i) ∧
       (∀ i, (∃ x ∈ st.relationships, x.id = i) →
         ∃ y ∈ b.relationships, y.id = i)) := by
    intro a rec b hab hp
    obtain ⟨hids, hrel⟩ := parseRel_preserves hab
    refine ⟨fun i hi => ?_, fun i hi => hrel i (hp.2 i hi)⟩
    have hmem : i ∈ a.elements.map (fun x => x.id) := by
      obtain ⟨y, hy, hyid⟩ := hp.1 i hi
      exact List.mem_map.mpr ⟨y, hy, hyid⟩
    rw [← hids] at hmem
    obtain ⟨y, hy, hyid⟩ := List.mem_map.mp hmem
    exact ⟨y, hy, hyid⟩
  have hP1 := foldlM_preserves hstep1 src.elements st st1 h1
    ⟨fun i hi => hi, fun i hi => hi⟩
  exact foldlM_preserves hstep2 src.rels st1 st' h2 hP1

/-- C9 (witness): the second parse on the used instance `c9stA`
succeeds, and the accumulated state keeps the ids from the first
parse. -/
theorem C9_parse_accumulates_witness :
    parseModel c9stA c9src2 = Except.ok c9stB ∧
    ((∀ i, (∃ x ∈ c9stA.elements, x.id = i) →
        ∃ y ∈ c9stB.elements, y.id = i) ∧
     (∀ i, (∃ x ∈ c9stA.relationships, x.id = i) →
        ∃ y ∈ c9stB.relationships, y.id = i)) :=
  ⟨by decide, C9_parse_accumulates c9stA c9src2 c9stB (by decide)⟩

